import Mathlib

/-!
Verification of the routing core of the `televoltaic` repository
(`televoltaic/routing/api.py` and `televoltaic/routing/dispatcher.py`).

The Python code is shallowly embedded: dataclasses become structures,
`None`-able attributes become `Option`, raised exceptions become `Except`
errors, and the in-place mutation of a pattern's memo slots
(`_compiled`, `_handler`) and of the `namespace` field during
flattening becomes explicit state passing (functions return the updated
pattern).  `update.message.text` / `update.callback_query.data` are each
collapsed to a single `Option String` feature (a missing object, a
missing attribute and an attribute holding `None` are indistinguishable
to `match`, which only ever reads these two leaves through `getattr`
chains defaulting to `None`).

Python's `re` module is embedded as a small executable regex engine
(`Regex`, `runRe`) together with a parser (`parseRegex`) for the regex
fragment the route tables use: literal characters, `.`, the class `\d`,
escaped punctuation, groups `(...)`, the quantifiers `*` and `+`, and
the anchors `^` and `$`.  `re.match` anchors at position 0 without
requiring the whole string to be consumed; `re.search` tries successive
start positions.  A source string outside this fragment (or malformed) is
treated as failing to compile, which models `re.error`
(the spec's `PatternCompileError`).
-/

namespace Televoltaic

/-! ### Python string primitives (on `List Char` so the kernel evaluates them) -/

/-- Truthiness of a Python string: `bool(s)` is `True` iff `s` is nonempty. -/
def pyTruthyStr (s : String) : Bool :=
  !s.data.isEmpty

/-- Truthiness of a Python value that is either `None` or a string. -/
def pyTruthy : Option String → Bool
  | none => false
  | some s => pyTruthyStr s

/-- `s.startswith("/")`. -/
def startsWithSlash (s : String) : Bool :=
  match s.data with
  | [] => false
  | c :: _ => c = '/'

/-- `s.lstrip("/")`: drop every leading `'/'` character. -/
def lstripSlashes (s : String) : String :=
  String.mk (s.data.dropWhile (fun c => c = '/'))

/-- Worker for `str.split()` with no separator: split on runs of
whitespace and keep only nonempty tokens.  `acc` holds the current token
reversed. -/
def pySplitWSAux : List Char → List Char → List String
  | [], acc => if acc.isEmpty then [] else [String.mk acc.reverse]
  | c :: cs, acc =>
    if c.isWhitespace then
      if acc.isEmpty then pySplitWSAux cs []
      else String.mk acc.reverse :: pySplitWSAux cs []
    else pySplitWSAux cs (c :: acc)

/-- Python `s.split()` (no argument): whitespace-run separated tokens,
never containing an empty token.  (`Char.isWhitespace` covers the ASCII
whitespace the route layer can meet.) -/
def pySplitWS (s : String) : List String :=
  pySplitWSAux s.data []

/-- Worker for `s.split(":")`. -/
def pySplitColonAux : List Char → List Char → List (List Char)
  | [], acc => [acc.reverse]
  | c :: cs, acc =>
    if c = ':' then acc.reverse :: pySplitColonAux cs []
    else pySplitColonAux cs (c :: acc)

/-- Python `s.split(":")`. -/
def pySplitColon (s : String) : List String :=
  (pySplitColonAux s.data []).map String.mk

/-- Worker for `s.rpartition(".")`: returns the parts before and after
the last `'.'`, or `none` when there is no dot. -/
def rpartitionDotAux : List Char → Option (List Char × List Char)
  | [] => none
  | c :: cs =>
    match rpartitionDotAux cs with
    | some (b, a) => some (c :: b, a)
    | none => if c = '.' then some ([], cs) else none

/-- Python `s.rpartition(".")`, keeping only the head and tail parts:
`"a.b.c" ↦ ("a.b", "c")`, and `("", s)` when `s` has no dot (Python
returns `("", "", s)` there, and the caller only tests emptiness). -/
def rpartitionDot (s : String) : String × String :=
  match rpartitionDotAux s.data with
  | some (b, a) => (String.mk b, String.mk a)
  | none => ("", s)

/-! ### Regular expressions (the fragment used by the route tables) -/

/-- Abstract syntax of the supported regex fragment. -/
inductive Regex where
  | emp : Regex
  | chr : Char → Regex
  | any : Regex
  | digit : Regex
  | seq : Regex → Regex → Regex
  | star : Regex → Regex
  | group : Regex → Regex
  | bol : Regex
  | eol : Regex
deriving Repr, DecidableEq

/-- Backtracking matcher.  `runRe fuel r i cs` matches `r` against the
suffix `cs` of the subject starting at absolute position `i` and returns
every way to consume a prefix, as `(end position, captured groups)`
pairs, in Python's backtracking preference order (greedy quantifiers, so
the head of the list is the match Python reports).  The fuel only bounds
recursion depth; `reMatchAt` supplies enough for the whole subject. -/
def runRe : Nat → Regex → Nat → List Char → List (Nat × List String)
  | 0, _, _, _ => []
  | _ + 1, .emp, i, _ => [(i, [])]
  | _ + 1, .chr c, i, cs =>
    match cs with
    | [] => []
    | c2 :: _ => if c2 = c then [(i + 1, [])] else []
  | _ + 1, .any, i, cs =>
    match cs with
    | [] => []
    | c2 :: _ => if c2 = '\n' then [] else [(i + 1, [])]
  | _ + 1, .digit, i, cs =>
    match cs with
    | [] => []
    | c2 :: _ => if c2.isDigit then [(i + 1, [])] else []
  | _ + 1, .bol, i, _ => if i = 0 then [(i, [])] else []
  | _ + 1, .eol, i, cs => if cs.isEmpty then [(i, [])] else []
  | fuel + 1, .seq a b, i, cs =>
    (runRe fuel a i cs).flatMap (fun jc =>
      (runRe fuel b jc.1 (cs.drop (jc.1 - i))).map (fun kc => (kc.1, jc.2 ++ kc.2)))
  | fuel + 1, .group r, i, cs =>
    (runRe fuel r i cs).map (fun jc => (jc.1, String.mk (cs.take (jc.1 - i)) :: jc.2))
  | fuel + 1, .star r, i, cs =>
    ((runRe fuel r i cs).filter (fun jc => i < jc.1)).flatMap
      (fun jc => (runRe fuel (.star r) jc.1 (cs.drop (jc.1 - i))).map
        (fun kc => (kc.1, jc.2 ++ kc.2)))
    ++ [(i, [])]

/-- A Python `re.Match`, reduced to what `MatchResult` exposes: the
span and the captured groups. -/
structure RMatch where
  start : Nat
  stop : Nat
  groups : List String
deriving Repr, DecidableEq

/-- Structural size of a regex, used only to pick an ample fuel. -/
def Regex.size : Regex → Nat
  | .seq a b => a.size + b.size + 1
  | .star r => r.size + 1
  | .group r => r.size + 1
  | _ => 1

/-- Fuel that is ample for any match attempt of `r` inside `s`. -/
def reFuel (r : Regex) (s : String) : Nat :=
  (r.size + 1) * (s.data.length + 2)

/-- Attempt a match of `r` anchored at position `i` of `s`
(the first result in backtracking order, as Python reports). -/
def reMatchAt (r : Regex) (s : String) (i : Nat) : Option RMatch :=
  match runRe (reFuel r s) r i (s.data.drop i) with
  | [] => none
  | (j, caps) :: _ => some ⟨i, j, caps⟩

/-- Python `pattern.match(s)`: anchored at position 0, not required to
consume the whole string. -/
def reMatch (r : Regex) (s : String) : Option RMatch :=
  reMatchAt r s 0

/-- Python `pattern.search(s)`: try successive start positions and
return the leftmost match. -/
def reSearch (r : Regex) (s : String) : Option RMatch :=
  (List.range (s.data.length + 1)).findSome? (fun i => reMatchAt r s i)

/-- Recursive-descent parser for the regex fragment, modelling
`re.compile`'s acceptance: `some` on a well-formed source, `none` on a
malformed one (unbalanced parenthesis, dangling quantifier or escape,
or a construct outside the fragment), which is how `re.error` — the
spec's `PatternCompileError` — arises.  `acc` is the sequence parsed so
far; parsing stops at the end of input or at `')'` (left for the
caller).  The fuel dominates the number of atoms plus nesting. -/
def parseSeq : Nat → Regex → List Char → Option (Regex × List Char)
  | 0, _, _ => none
  | _ + 1, acc, [] => some (acc, [])
  | _ + 1, acc, ')' :: rest => some (acc, ')' :: rest)
  | fuel + 1, acc, c :: rest =>
    let atom? : Option (Regex × List Char) :=
      if c = '(' then
        match parseSeq fuel .emp rest with
        | some (r, ')' :: rest2) => some (.group r, rest2)
        | _ => none
      else if c = '\\' then
        match rest with
        | [] => none
        | e :: rest2 =>
          if e = 'd' then some (.digit, rest2)
          else if e.isAlphanum then none
          else some (.chr e, rest2)
      else if c = '^' then some (.bol, rest)
      else if c = '$' then some (.eol, rest)
      else if c = '.' then some (.any, rest)
      else if c = '*' ∨ c = '+' ∨ c = '?' ∨ c = '|' ∨ c = '[' ∨ c = ']' ∨ c = '{' ∨ c = '}' then
        none
      else some (.chr c, rest)
    match atom? with
    | none => none
    | some (a, rest2) =>
      match rest2 with
      | '*' :: rest3 => parseSeq fuel (.seq acc (.star a)) rest3
      | '+' :: rest3 => parseSeq fuel (.seq acc (.seq a (.star a))) rest3
      | rest3 => parseSeq fuel (.seq acc a) rest3

/-- `re.compile` on the supported fragment: `some` iff the source is
accepted; a leftover `')'` (unbalanced) is rejected. -/
def parseRegex (s : String) : Option Regex :=
  match parseSeq (s.data.length * 2 + 2) .emp s.data with
  | some (r, []) => some r
  | _ => none

/-! ### The pattern model (`televoltaic/routing/api.py`) -/

/-- A Python object as far as the handler loader observes it: an
identity and whether `callable(·)` holds. -/
structure PyObj where
  oid : Nat
  callable : Bool
deriving Repr, DecidableEq

/-- The importable-module environment backing `importlib.import_module`
and `getattr` for handler resolution: module path → attribute name →
object.  (Python attributes bound to `None` are not representable,
matching the code, which treats a `None` attribute as missing.) -/
structure Env where
  modules : List (String × List (String × PyObj))
deriving Repr, DecidableEq

/-- `import_module` against an `Env`: `none` models an import failure. -/
def Env.importModule (e : Env) (path : String) : Option (List (String × PyObj)) :=
  (e.modules.find? (fun m => m.1 = path)).map (fun m => m.2)

/-- `getattr(module, attr, None)`. -/
def pyGetattr (m : List (String × PyObj)) (attr : String) : Option PyObj :=
  (m.find? (fun a => a.1 = attr)).map (fun a => a.2)

/-- `HandlerLoaderError`, with one constructor per `raise` site of
`BasePattern.load_handler`. -/
inductive HandlerLoaderError where
  | invalidPath : String → HandlerLoaderError
  | cannotImport : String → String → HandlerLoaderError
  | attrNotFound : String → String → HandlerLoaderError
  | notCallable : String → HandlerLoaderError
deriving Repr, DecidableEq

/-- `re.error`, which the spec calls `PatternCompileError`. -/
inductive PatternCompileError where
  | invalidRegex : String → PatternCompileError
deriving Repr, DecidableEq

/-- `BasePattern`.  The dataclass fields keep their names where Lean
allows; `namespace` is a Lean keyword, so that field is called `ns`.
The private memo slots `_compiled` and `_handler` are `Option`-valued
fields, and the mutating methods return the updated pattern. -/
structure BasePattern where
  kind : String
  pattern : String
  handler_path : String
  name : Option String := none
  ns : Option String := none
  _compiled : Option Regex := none
  _handler : Option PyObj := none
deriving Repr, DecidableEq

/-- `BasePattern.compile`: for `callback`/`message` kinds with no cached
regex, compile `pattern` (an invalid source raises); otherwise a no-op. -/
def BasePattern.compile (p : BasePattern) : Except PatternCompileError BasePattern :=
  if (p.kind = "callback" ∨ p.kind = "message") ∧ p._compiled = none then
    match parseRegex p.pattern with
    | some r => .ok { p with _compiled := some r }
    | none => .error (.invalidRegex p.pattern)
  else .ok p

/-- `BasePattern.load_handler`: return the cached handler if present;
otherwise split `handler_path` at its last dot, import the module, fetch
the attribute, check callability, and cache the result.  Each failure
raises `HandlerLoaderError`. -/
def BasePattern.load_handler (p : BasePattern) (env : Env) :
    Except HandlerLoaderError (PyObj × BasePattern) :=
  match p._handler with
  | some h => .ok (h, p)
  | none =>
    let mp := rpartitionDot p.handler_path
    if mp.1 = "" ∨ mp.2 = "" then .error (.invalidPath p.handler_path)
    else
      match env.importModule mp.1 with
      | none => .error (.cannotImport mp.1 p.handler_path)
      | some m =>
        match pyGetattr m mp.2 with
        | none => .error (.attrNotFound mp.2 mp.1)
        | some obj =>
          if !obj.callable then .error (.notCallable p.handler_path)
          else .ok (obj, { p with _handler := some obj })

/-- `BasePattern.fq_name`: `None` when unnamed, `"namespace:name"` when
a truthy namespace is set, else the bare name. -/
def BasePattern.fq_name (p : BasePattern) : Option String :=
  match p.name with
  | none => none
  | some n =>
    match p.ns with
    | some s => if pyTruthyStr s then some (s ++ ":" ++ n) else some n
    | none => some n

/-- Constructor function `command(...)` of the declarative API. -/
def command (name_or_pattern : String) (handler : String)
    (name : Option String := none) (ns : Option String := none) : BasePattern :=
  { kind := "command", pattern := name_or_pattern, handler_path := handler,
    name := name, ns := ns }

/-- Constructor function `callback(...)` of the declarative API. -/
def callback (regex : String) (handler : String)
    (name : Option String := none) (ns : Option String := none) : BasePattern :=
  { kind := "callback", pattern := regex, handler_path := handler,
    name := name, ns := ns }

/-- Constructor function `message(...)` of the declarative API. -/
def message (regex : String) (handler : String)
    (name : Option String := none) (ns : Option String := none) : BasePattern :=
  { kind := "message", pattern := regex, handler_path := handler,
    name := name, ns := ns }

/-! ### The dispatcher (`televoltaic/routing/dispatcher.py`) -/

/-- An incoming update, collapsed to the two leaves `Dispatcher.match`
reads: `update.message.text` and `update.callback_query.data` (missing
objects, missing attributes and `None` values all collapse to `none`). -/
structure Update where
  text : Option String := none
  callbackData : Option String := none
deriving Repr, DecidableEq

/-- A successful route match (`MatchResult`): winning pattern (with its
freshly cached handler), the handler, and the regex match if any. -/
structure MatchResult where
  pattern : BasePattern
  handler : PyObj
  m : Option RMatch := none
deriving Repr, DecidableEq

/-- Ways `Dispatcher.match` itself can raise: a `HandlerLoaderError`
from resolving the winning handler, the `IndexError` from
`text.lstrip("/").split()[0]` when the text is all slashes (and
whitespace), and the `assert p._compiled` failure on an uncompiled
callback/message pattern. -/
inductive DispatchError where
  | handler : HandlerLoaderError → DispatchError
  | indexError : DispatchError
  | assertionError : DispatchError
deriving Repr, DecidableEq

/-- Feature extraction for the command tier:
`cmd = text.lstrip("/").split()[0] if text and text.startswith("/")`.
The `[0]` raises `IndexError` when nothing but slashes and whitespace
was present. -/
def extractCmd : Option String → Except DispatchError (Option String)
  | none => .ok none
  | some t =>
    if pyTruthyStr t && startsWithSlash t then
      match pySplitWS (lstripSlashes t) with
      | [] => .error .indexError
      | tok :: _ => .ok (some tok)
    else .ok none

/-- The `Dispatcher`: just the flat pattern list. -/
structure Dispatcher where
  patterns : List BasePattern
deriving Repr, DecidableEq

/-- `Dispatcher.__init__`'s loop `for p in self.patterns: p.compile()`,
with the in-place mutation made explicit; stops at the first compile
error, which propagates to the constructor's caller. -/
def compileAll : List BasePattern → Except PatternCompileError (List BasePattern)
  | [] => .ok []
  | p :: rest =>
    match p.compile with
    | .error e => .error e
    | .ok p2 =>
      match compileAll rest with
      | .error e => .error e
      | .ok rest2 => .ok (p2 :: rest2)

/-- `Dispatcher(patterns)`: eagerly compile every pattern. -/
def Dispatcher.init (ps : List BasePattern) : Except PatternCompileError Dispatcher :=
  match compileAll ps with
  | .error e => .error e
  | .ok ps2 => .ok ⟨ps2⟩

/-- Priority-1 loop of `match`: first pattern with `kind == "command"`
and `pattern == cmd` wins and has its handler resolved.  Returns the
result together with the pattern list after the loop (the winner carries
its freshly written handler cache; nothing else is touched). -/
def scanCommand (env : Env) (cmd : String) :
    List BasePattern → Except DispatchError (Option MatchResult × List BasePattern)
  | [] => .ok (none, [])
  | p :: rest =>
    if p.kind = "command" && p.pattern = cmd then
      match p.load_handler env with
      | .error e => .error (.handler e)
      | .ok (h, p2) => .ok (some ⟨p2, h, none⟩, p2 :: rest)
    else
      match scanCommand env cmd rest with
      | .error e => .error e
      | .ok (r, rest2) => .ok (r, p :: rest2)

/-- Priority-2 loop of `match`: for each `kind == "callback"` pattern,
`assert p._compiled`, then `p._compiled.match(cb_data)` (anchored); the
first match wins and has its handler resolved. -/
def scanCallback (env : Env) (data : String) :
    List BasePattern → Except DispatchError (Option MatchResult × List BasePattern)
  | [] => .ok (none, [])
  | p :: rest =>
    if p.kind = "callback" then
      match p._compiled with
      | none => .error .assertionError
      | some r =>
        match reMatch r data with
        | some m =>
          match p.load_handler env with
          | .error e => .error (.handler e)
          | .ok (h, p2) => .ok (some ⟨p2, h, some m⟩, p2 :: rest)
        | none =>
          match scanCallback env data rest with
          | .error e => .error e
          | .ok (r2, rest2) => .ok (r2, p :: rest2)
    else
      match scanCallback env data rest with
      | .error e => .error e
      | .ok (r2, rest2) => .ok (r2, p :: rest2)

/-- Priority-3 loop of `match`: for each `kind == "message"` pattern,
`assert p._compiled`, then `p._compiled.search(text)` (unanchored); the
first match wins and has its handler resolved. -/
def scanMessage (env : Env) (text : String) :
    List BasePattern → Except DispatchError (Option MatchResult × List BasePattern)
  | [] => .ok (none, [])
  | p :: rest =>
    if p.kind = "message" then
      match p._compiled with
      | none => .error .assertionError
      | some r =>
        match reSearch r text with
        | some m =>
          match p.load_handler env with
          | .error e => .error (.handler e)
          | .ok (h, p2) => .ok (some ⟨p2, h, some m⟩, p2 :: rest)
        | none =>
          match scanMessage env text rest with
          | .error e => .error e
          | .ok (r2, rest2) => .ok (r2, p :: rest2)
    else
      match scanMessage env text rest with
      | .error e => .error e
      | .ok (r2, rest2) => .ok (r2, p :: rest2)

/-- The source's `# Priority 3: message` block: `if text:` guards the
message scan; otherwise fall through to the final `return None`. -/
def tier3run (env : Env) (text : Option String) (ps : List BasePattern) :
    Except DispatchError (Option MatchResult × List BasePattern) :=
  match text with
  | some t => if pyTruthyStr t then scanMessage env t ps else .ok (none, ps)
  | none => .ok (none, ps)

/-- The source's `# Priority 2: callback` block followed by priority 3:
`if cb_data:` guards the callback scan; when it returns nothing, the
message block runs on the (unchanged) pattern list. -/
def tier23run (env : Env) (u : Update) (ps : List BasePattern) :
    Except DispatchError (Option MatchResult × List BasePattern) :=
  match (match u.callbackData with
         | some dta => if pyTruthyStr dta then scanCallback env dta ps else .ok (none, ps)
         | none => .ok (none, ps)) with
  | .error e => .error e
  | .ok (some r, ps2) => .ok (some r, ps2)
  | .ok (none, ps2) => tier3run env u.text ps2

/-- `Dispatcher.match` (a Lean keyword, hence `matchFull`): extract the
features, then run the source's three priority blocks in order —
`if cmd:` guards the command scan, and whenever it does not return, the
callback and message blocks (`tier23run`/`tier3run`) follow.  The
updated pattern list (the winner's handler cache) is returned alongside
the result; `matchRes` below projects the result. -/
def Dispatcher.matchFull (d : Dispatcher) (env : Env) (u : Update) :
    Except DispatchError (Option MatchResult × List BasePattern) :=
  match extractCmd u.text with
  | .error e => .error e
  | .ok cmdOpt =>
    match (match cmdOpt with
           | some c => if pyTruthyStr c then scanCommand env c d.patterns
                       else .ok (none, d.patterns)
           | none => .ok (none, d.patterns)) with
    | .error e => .error e
    | .ok (some r, ps2) => .ok (some r, ps2)
    | .ok (none, ps1) => tier23run env u ps1

/-- `Dispatcher.match`'s return value (`MatchResult | None`), with the
state threading projected away. -/
def Dispatcher.matchRes (d : Dispatcher) (env : Env) (u : Update) :
    Except DispatchError (Option MatchResult) :=
  (d.matchFull env u).map (fun x => x.1)

/-! ### The route table builder (`patterns`, `Include`, `flatten`) -/

/-- `Include`: a deferred reference to another route table.  As with
`BasePattern`, the `namespace` field is called `ns`. -/
structure Include where
  target : String
  ns : Option String := none
deriving Repr, DecidableEq

/-- A route table entry: `BasePattern | Include`. -/
inductive Entry where
  | pat : BasePattern → Entry
  | inc : Include → Entry
deriving Repr, DecidableEq

/-- Constructor function `include(...)` (a Lean keyword, hence the
underscore). -/
def include_ (target : String) (ns : Option String := none) : Include :=
  ⟨target, ns⟩

/-- `patterns(namespace, *entries)`: stamp the namespace onto direct
`BasePattern` children that lack one; pass `Include` entries (and
already-namespaced patterns) through unmodified, preserving order. -/
def patterns (ns : Option String) (entries : List Entry) : List Entry :=
  entries.map (fun e =>
    match e with
    | .pat p => if pyTruthy ns && p.ns.isNone then .pat { p with ns := ns } else .pat p
    | .inc i => .inc i)

/-- The per-child stamping inside `flatten`'s resolution loop: the
include's namespace is written onto a resolved child (pattern or nested
include) when it is truthy and the child's namespace is `None`. -/
def stampEntry (ns : Option String) : Entry → Entry
  | .pat p => if pyTruthy ns && p.ns.isNone then .pat { p with ns := ns } else .pat p
  | .inc i => if pyTruthy ns && i.ns.isNone then .inc { i with ns := ns } else .inc i

/-- The importable-module environment for `flatten`'s
`import_module`/`getattr`: module path → attribute name → route table.
A finite association list, so an include graph over it is finite. -/
structure RouteEnv where
  modules : List (String × List (String × List Entry))
deriving Repr, DecidableEq

/-- `import_module` for route tables; `none` models
`ModuleNotFoundError`. -/
def RouteEnv.importModule (e : RouteEnv) (path : String) :
    Option (List (String × List Entry)) :=
  (e.modules.find? (fun m => m.1 = path)).map (fun m => m.2)

/-- `getattr(module, attr, None)` for route tables. -/
def getattrTable (m : List (String × List Entry)) (attr : String) :
    Option (List Entry) :=
  (m.find? (fun a => a.1 = attr)).map (fun a => a.2)

/-- Failures of `flatten`'s external resolution: an unimportable module
(`ModuleNotFoundError` propagating out of `import_module`) or a module
missing the expected attribute (the `RuntimeError` raise site). -/
inductive FlattenError where
  | importError : String → FlattenError
  | missingAttr : String → String → FlattenError
deriving Repr, DecidableEq

/-- Resolution of an include target:
`module_ref = target.split(":")[0]`, attribute
`target.split(":")[1]` if the target contains `':'` else
`"urlpatterns"`; then import and attribute lookup. -/
def resolveTarget (env : RouteEnv) (target : String) :
    Except FlattenError (List Entry) :=
  let parts := pySplitColon target
  let module_ref := parts.headD ""
  let attr :=
    match parts with
    | _ :: a :: _ => a
    | _ => "urlpatterns"
  match env.importModule module_ref with
  | none => .error (.importError module_ref)
  | some m =>
    match getattrTable m attr with
    | none => .error (.missingAttr target attr)
    | some tbl => .ok tbl

/-- The include-target strings occurring in a list of entries. -/
def entryTargets : List Entry → List String
  | [] => []
  | .pat _ :: rest => entryTargets rest
  | .inc i :: rest => i.target :: entryTargets rest

/-- All route tables held anywhere in the environment. -/
def envTables (env : RouteEnv) : List (List Entry) :=
  env.modules.flatMap (fun m => m.2.map (fun a => a.2))

/-- All include-target strings occurring anywhere in the environment. -/
def envTargets (env : RouteEnv) : List String :=
  (envTables env).flatMap entryTargets

/-- Total number of entries stored in the environment (bounds the size
of any one resolved table). -/
def envEntryCount (env : RouteEnv) : Nat :=
  ((envTables env).map List.length).sum

/-- Termination measure for `flatten`: the number of target strings the
visited set has not yet absorbed (weighted so that it dominates the
entries a resolution can push), plus the number of pending entries.
This is the formal content of the spec's cycle guard: every recursive
step either consumes an entry or permanently marks a fresh target
visited, and only finitely many targets exist. -/
def flattenMeasure (env : RouteEnv) (entries : List Entry) (seen : List String) : Nat :=
  ((envTargets env ++ entryTargets entries).toFinset \ seen.toFinset).card
    * (envEntryCount env + 1) + entries.length

theorem entryTargets_tail_subset (e : Entry) (rest : List Entry) :
    ∀ x ∈ entryTargets rest, x ∈ entryTargets (e :: rest) := by
  intro x hx
  cases e with
  | pat p => simpa [entryTargets] using hx
  | inc i => simp [entryTargets, hx]

theorem entryTargets_append (a b : List Entry) :
    entryTargets (a ++ b) = entryTargets a ++ entryTargets b := by
  induction a with
  | nil => simp [entryTargets]
  | cons e rest ih => cases e <;> simp [entryTargets, ih]

theorem entryTargets_stamp (ns : Option String) (l : List Entry) :
    entryTargets (l.map (stampEntry ns)) = entryTargets l := by
  induction l with
  | nil => simp [entryTargets]
  | cons e rest ih =>
    cases e with
    | pat p => simp [entryTargets, stampEntry, ih]; split <;> simp [entryTargets, ih]
    | inc i => simp [entryTargets, stampEntry, ih]; split <;> simp [entryTargets, ih]

theorem importModule_mem {env : RouteEnv} {path : String}
    {m : List (String × List Entry)} (h : env.importModule path = some m) :
    ∃ pm ∈ env.modules, pm.2 = m := by
  unfold RouteEnv.importModule at h
  rcases hfm : env.modules.find? (fun x => x.1 = path) with _ | pm
  · rw [hfm] at h; simp at h
  · rw [hfm] at h
    exact ⟨pm, List.mem_of_find?_eq_some hfm, by simpa using h⟩

theorem getattrTable_mem {m : List (String × List Entry)} {attr : String}
    {tbl : List Entry} (h : getattrTable m attr = some tbl) :
    ∃ pa ∈ m, pa.2 = tbl := by
  unfold getattrTable at h
  rcases hfa : m.find? (fun x => x.1 = attr) with _ | pa
  · rw [hfa] at h; simp at h
  · rw [hfa] at h
    exact ⟨pa, List.mem_of_find?_eq_some hfa, by simpa using h⟩

theorem resolveTarget_mem_envTables {env : RouteEnv} {t : String} {tbl : List Entry}
    (h : resolveTarget env t = .ok tbl) : tbl ∈ envTables env := by
  unfold resolveTarget at h
  dsimp only at h
  split at h
  · exact absurd h (by simp)
  · rename_i m hm
    split at h
    · exact absurd h (by simp)
    · rename_i tb hg
      have htbl : tb = tbl := by simpa using h
      subst htbl
      obtain ⟨pm, hpm, hpm2⟩ := importModule_mem hm
      obtain ⟨pa, hpa, hpa2⟩ := getattrTable_mem hg
      rw [← hpm2] at hpa
      unfold envTables
      refine List.mem_flatMap.mpr ⟨pm, hpm, ?_⟩
      exact List.mem_map.mpr ⟨pa, hpa, hpa2⟩

theorem mem_envTables_length {env : RouteEnv} {tbl : List Entry}
    (h : tbl ∈ envTables env) : tbl.length ≤ envEntryCount env := by
  unfold envEntryCount
  exact List.single_le_sum (by intro x _; exact Nat.zero_le x) _
    (List.mem_map.mpr ⟨tbl, h, rfl⟩)

theorem mem_envTargets {env : RouteEnv} {tbl : List Entry}
    (h : tbl ∈ envTables env) {t : String} (ht : t ∈ entryTargets tbl) :
    t ∈ envTargets env :=
  List.mem_flatMap.mpr ⟨tbl, h, ht⟩

theorem flattenMeasure_tail_lt (env : RouteEnv) (e : Entry) (rest : List Entry)
    (seen : List String) :
    flattenMeasure env rest seen < flattenMeasure env (e :: rest) seen := by
  have hsub : ((envTargets env ++ entryTargets rest).toFinset \ seen.toFinset)
      ⊆ ((envTargets env ++ entryTargets (e :: rest)).toFinset \ seen.toFinset) := by
    intro x hx
    simp only [Finset.mem_sdiff, List.mem_toFinset, List.mem_append] at hx ⊢
    exact ⟨hx.1.elim Or.inl (fun h => Or.inr (entryTargets_tail_subset e rest x h)), hx.2⟩
  have hcard := Finset.card_le_card hsub
  have hmul := Nat.mul_le_mul_right (envEntryCount env + 1) hcard
  unfold flattenMeasure
  simp only [List.length_cons]
  linarith

theorem flattenMeasure_include_lt (env : RouteEnv) (i : Include) (rest : List Entry)
    (seen : List String) (tbl : List Entry)
    (htbl : tbl ∈ envTables env) (hns : i.target ∉ seen) :
    flattenMeasure env (tbl.map (stampEntry i.ns) ++ rest) (i.target :: seen)
      < flattenMeasure env (.inc i :: rest) seen := by
  have hmemB : i.target ∈
      ((envTargets env ++ entryTargets (.inc i :: rest)).toFinset \ seen.toFinset) := by
    simp only [Finset.mem_sdiff, List.mem_toFinset, List.mem_append, entryTargets]
    exact ⟨Or.inr (List.mem_cons_self _ _), hns⟩
  have hsub : ((envTargets env ++ entryTargets (tbl.map (stampEntry i.ns) ++ rest)).toFinset
        \ (i.target :: seen).toFinset)
      ⊆ ((envTargets env ++ entryTargets (.inc i :: rest)).toFinset \ seen.toFinset).erase
          i.target := by
    intro x hx
    simp only [Finset.mem_sdiff, List.mem_toFinset, List.mem_append, List.mem_cons,
      not_or] at hx
    obtain ⟨hin, hne, hnseen⟩ := hx
    refine Finset.mem_erase.mpr ⟨hne, ?_⟩
    simp only [Finset.mem_sdiff, List.mem_toFinset, List.mem_append]
    refine ⟨?_, hnseen⟩
    rcases hin with h | h
    · exact Or.inl h
    · rw [entryTargets_append, entryTargets_stamp] at h
      rcases List.mem_append.mp h with h | h
      · exact Or.inl (mem_envTargets htbl h)
      · exact Or.inr (entryTargets_tail_subset (.inc i) rest x h)
  have hcard : ((envTargets env ++ entryTargets (tbl.map (stampEntry i.ns) ++ rest)).toFinset
        \ (i.target :: seen).toFinset).card
      < ((envTargets env ++ entryTargets (.inc i :: rest)).toFinset \ seen.toFinset).card :=
    lt_of_le_of_lt (Finset.card_le_card hsub) (Finset.card_erase_lt_of_mem hmemB)
  have hlen : (tbl.map (stampEntry i.ns)).length ≤ envEntryCount env := by
    rw [List.length_map]
    exact mem_envTables_length htbl
  have hmul : (((envTargets env ++ entryTargets (tbl.map (stampEntry i.ns) ++ rest)).toFinset
        \ (i.target :: seen).toFinset).card + 1) * (envEntryCount env + 1)
      ≤ ((envTargets env ++ entryTargets (.inc i :: rest)).toFinset
        \ seen.toFinset).card * (envEntryCount env + 1) :=
    Nat.mul_le_mul_right _ (Nat.succ_le_of_lt hcard)
  unfold flattenMeasure
  simp only [List.length_append, List.length_cons]
  nlinarith

/-- `flatten(entries, _seen)`.  The source iterates the entries with one
mutable visited set shared between the recursive call on the resolved
children and the remaining iterations
(`flat.extend(flatten(nested, _seen=_seen))`, then the loop continues);
threading that state explicitly, this is exactly: continue on
`nested ++ rest` with the target marked visited.  (The source marks the
target visited before resolving it; since a resolution failure aborts
the whole call, marking it after, as here, is indistinguishable.)
Termination rests on `flattenMeasure`: the visited-set guard skips any
target seen before, so each resolution consumes a fresh target out of
the finite environment. -/
def flattenGo (env : RouteEnv) :
    (entries : List Entry) → (seen : List String) →
    Except FlattenError (List BasePattern)
  | [], _ => .ok []
  | .pat p :: rest, seen =>
    match flattenGo env rest seen with
    | .error e => .error e
    | .ok out => .ok (p :: out)
  | .inc i :: rest, seen =>
    if hseen : i.target ∈ seen then flattenGo env rest seen
    else
      match hres : resolveTarget env i.target with
      | .error e => .error e
      | .ok tbl => flattenGo env (tbl.map (stampEntry i.ns) ++ rest) (i.target :: seen)
  termination_by entries seen => flattenMeasure env entries seen
  decreasing_by
  · exact flattenMeasure_tail_lt env _ rest seen
  · exact flattenMeasure_tail_lt env _ rest seen
  · exact flattenMeasure_include_lt env i rest seen tbl
      (resolveTarget_mem_envTables hres) hseen

/-- `flatten(entries)` with the default empty visited set. -/
def flatten (env : RouteEnv) (entries : List Entry) :
    Except FlattenError (List BasePattern) :=
  flattenGo env entries []

/-! Unfolding equations for `flattenGo` (well-founded definitions do not
reduce definitionally, so concrete route tables are evaluated by
rewriting with these). -/

theorem flattenGo_nil (env : RouteEnv) (seen : List String) :
    flattenGo env [] seen = .ok [] := by
  simp [flattenGo]

theorem flattenGo_pat (env : RouteEnv) (p : BasePattern) (rest : List Entry)
    (seen : List String) :
    flattenGo env (.pat p :: rest) seen =
      match flattenGo env rest seen with
      | .error e => .error e
      | .ok out => .ok (p :: out) := by
  simp [flattenGo]

theorem flattenGo_inc_seen (env : RouteEnv) {i : Include} (rest : List Entry)
    {seen : List String} (h : i.target ∈ seen) :
    flattenGo env (.inc i :: rest) seen = flattenGo env rest seen := by
  rw [flattenGo]
  rw [dif_pos h]

theorem flattenGo_inc_ok (env : RouteEnv) {i : Include} (rest : List Entry)
    {seen : List String} {tbl : List Entry} (hseen : i.target ∉ seen)
    (hres : resolveTarget env i.target = .ok tbl) :
    flattenGo env (.inc i :: rest) seen =
      flattenGo env (tbl.map (stampEntry i.ns) ++ rest) (i.target :: seen) := by
  rw [flattenGo]
  rw [dif_neg hseen]
  split
  · rename_i e heq
    rw [hres] at heq
    exact absurd heq (by simp)
  · rename_i tbl2 heq
    rw [hres] at heq
    injection heq with h2
    rw [h2]

/-! ### General lemmas about the handler loader and the match tiers -/

/-- A cached handler is returned as-is, with no resolution and no state
change — for any environment. -/
theorem load_handler_cached {p : BasePattern} {h : PyObj}
    (hc : p._handler = some h) (env : Env) :
    p.load_handler env = .ok (h, p) := by
  unfold BasePattern.load_handler
  rw [hc]

/-- A successful `load_handler` only writes the `_handler` memo slot:
every declared field is preserved and the cache now holds the handler. -/
theorem load_handler_fields {p : BasePattern} {env : Env} {h : PyObj} {p2 : BasePattern}
    (hl : p.load_handler env = .ok (h, p2)) :
    p2.kind = p.kind ∧ p2.pattern = p.pattern ∧ p2.handler_path = p.handler_path ∧
    p2.name = p.name ∧ p2.ns = p.ns ∧ p2._compiled = p._compiled ∧
    p2._handler = some h := by
  unfold BasePattern.load_handler at hl
  split at hl
  · rename_i h0 heq
    simp only [Except.ok.injEq, Prod.mk.injEq] at hl
    obtain ⟨rfl, rfl⟩ := hl
    exact ⟨rfl, rfl, rfl, rfl, rfl, rfl, heq⟩
  · dsimp only at hl
    split at hl
    · simp at hl
    · split at hl
      · simp at hl
      · rename_i m hm
        split at hl
        · simp at hl
        · rename_i obj hobj
          split at hl
          · simp at hl
          · simp only [Except.ok.injEq, Prod.mk.injEq] at hl
            obtain ⟨rfl, rfl⟩ := hl
            exact ⟨rfl, rfl, rfl, rfl, rfl, rfl, rfl⟩

/-- Splitting a decidable search: the first satisfying element of a list
splits it into a prefix of non-satisfying elements, the element, and a
tail. -/
theorem exists_first_split {α : Type} (pred : α → Prop) [DecidablePred pred]
    {l : List α} (h : ∃ x ∈ l, pred x) :
    ∃ pre x post, l = pre ++ x :: post ∧ pred x ∧ ∀ q ∈ pre, ¬pred q := by
  induction l with
  | nil => simp at h
  | cons a rest ih =>
    by_cases ha : pred a
    · exact ⟨[], a, rest, rfl, ha, by simp⟩
    · obtain ⟨x, hx, hpx⟩ := h
      rcases List.mem_cons.mp hx with rfl | hx2
      · exact absurd hpx ha
      · obtain ⟨pre, y, post, heq, hp, hpre⟩ := ih ⟨x, hx2, hpx⟩
        refine ⟨a :: pre, y, post, by rw [heq]; rfl, hp, ?_⟩
        intro q hq
        rcases List.mem_cons.mp hq with rfl | h2
        · exact ha
        · exact hpre q h2

/-- The command tier scans in declaration order: with every pattern
before `p` failing the structural test and `p` passing it, the scan
resolves exactly `p`'s handler and the outcome is `p`'s. -/
theorem scanCommand_split {env : Env} {c : String} (pre post : List BasePattern)
    (p : BasePattern)
    (hpre : ∀ q ∈ pre, ¬(q.kind = "command" ∧ q.pattern = c))
    (hk : p.kind = "command") (hp : p.pattern = c) :
    (∀ e, p.load_handler env = .error e →
      scanCommand env c (pre ++ p :: post) = .error (.handler e)) ∧
    (∀ h p2, p.load_handler env = .ok (h, p2) →
      scanCommand env c (pre ++ p :: post) = .ok (some ⟨p2, h, none⟩, pre ++ p2 :: post)) := by
  induction pre with
  | nil =>
    constructor
    · intro e he
      rw [List.nil_append, scanCommand, if_pos (by simp [hk, hp])]
      simp only [he]
    · intro h p2 hl
      rw [List.nil_append, scanCommand, if_pos (by simp [hk, hp])]
      simp only [hl, List.nil_append]
  | cons q rest ih =>
    have hq := hpre q (List.mem_cons_self _ _)
    obtain ⟨ih1, ih2⟩ := ih (fun r hr => hpre r (List.mem_cons_of_mem _ hr))
    constructor
    · intro e he
      rw [List.cons_append, scanCommand,
        if_neg (by simp only [Bool.and_eq_true, decide_eq_true_eq]; exact hq)]
      simp only [ih1 e he]
    · intro h p2 hl
      rw [List.cons_append, scanCommand,
        if_neg (by simp only [Bool.and_eq_true, decide_eq_true_eq]; exact hq)]
      simp only [ih2 h p2 hl, List.cons_append]

/-- When no pattern passes the command tier's structural test, the scan
reports no result and leaves the list untouched. -/
theorem scanCommand_none {env : Env} {c : String} {ps : List BasePattern}
    (h : ∀ p ∈ ps, ¬(p.kind = "command" ∧ p.pattern = c)) :
    scanCommand env c ps = .ok (none, ps) := by
  induction ps with
  | nil => rfl
  | cons p rest ih =>
    have hp := h p (List.mem_cons_self _ _)
    rw [scanCommand,
      if_neg (by simp only [Bool.and_eq_true, decide_eq_true_eq]; exact hp)]
    simp only [ih (fun q hq => h q (List.mem_cons_of_mem _ hq))]

/-- The callback tier scans in declaration order with anchored matching:
every compiled callback pattern before `p` fails `re.match`, `p`'s
anchored match succeeds, and the outcome is `p`'s. -/
theorem scanCallback_split {env : Env} {data : String} (pre post : List BasePattern)
    (p : BasePattern) {r : Regex} {m : RMatch}
    (hpre : ∀ q ∈ pre, q.kind = "callback" →
      ∃ rq, q._compiled = some rq ∧ reMatch rq data = none)
    (hk : p.kind = "callback") (hc : p._compiled = some r)
    (hm : reMatch r data = some m) :
    (∀ e, p.load_handler env = .error e →
      scanCallback env data (pre ++ p :: post) = .error (.handler e)) ∧
    (∀ h p2, p.load_handler env = .ok (h, p2) →
      scanCallback env data (pre ++ p :: post)
        = .ok (some ⟨p2, h, some m⟩, pre ++ p2 :: post)) := by
  induction pre with
  | nil =>
    constructor
    · intro e he
      rw [List.nil_append, scanCallback, if_pos (by simp [hk])]
      simp only [hc, hm, he]
    · intro h p2 hl
      rw [List.nil_append, scanCallback, if_pos (by simp [hk])]
      simp only [hc, hm, hl, List.nil_append]
  | cons q rest ih =>
    obtain ⟨ih1, ih2⟩ := ih (fun x hx => hpre x (List.mem_cons_of_mem _ hx))
    by_cases hqk : q.kind = "callback"
    · obtain ⟨rq, hrq, hrm⟩ := hpre q (List.mem_cons_self _ _) hqk
      constructor
      · intro e he
        rw [List.cons_append, scanCallback, if_pos (by simp [hqk])]
        simp only [hrq, hrm, ih1 e he]
      · intro h p2 hl
        rw [List.cons_append, scanCallback, if_pos (by simp [hqk])]
        simp only [hrq, hrm, ih2 h p2 hl, List.cons_append]
    · constructor
      · intro e he
        rw [List.cons_append, scanCallback, if_neg (by simpa using hqk)]
        simp only [ih1 e he]
      · intro h p2 hl
        rw [List.cons_append, scanCallback, if_neg (by simpa using hqk)]
        simp only [ih2 h p2 hl, List.cons_append]

/-- When every compiled callback pattern fails the anchored match, the
callback tier reports no result and leaves the list untouched. -/
theorem scanCallback_none {env : Env} {data : String} {ps : List BasePattern}
    (h : ∀ p ∈ ps, p.kind = "callback" →
      ∃ rq, p._compiled = some rq ∧ reMatch rq data = none) :
    scanCallback env data ps = .ok (none, ps) := by
  induction ps with
  | nil => rfl
  | cons p rest ih =>
    have ihr := ih (fun q hq => h q (List.mem_cons_of_mem _ hq))
    by_cases hk : p.kind = "callback"
    · obtain ⟨rq, hrq, hrm⟩ := h p (List.mem_cons_self _ _) hk
      rw [scanCallback, if_pos (by simp [hk])]
      simp only [hrq, hrm, ihr]
    · rw [scanCallback, if_neg (by simpa using hk)]
      simp only [ihr]

/-- The message tier scans in declaration order with unanchored search:
every compiled message pattern before `p` fails `re.search`, `p`'s
search succeeds, and the outcome is `p`'s. -/
theorem scanMessage_split {env : Env} {text : String} (pre post : List BasePattern)
    (p : BasePattern) {r : Regex} {m : RMatch}
    (hpre : ∀ q ∈ pre, q.kind = "message" →
      ∃ rq, q._compiled = some rq ∧ reSearch rq text = none)
    (hk : p.kind = "message") (hc : p._compiled = some r)
    (hm : reSearch r text = some m) :
    (∀ e, p.load_handler env = .error e →
      scanMessage env text (pre ++ p :: post) = .error (.handler e)) ∧
    (∀ h p2, p.load_handler env = .ok (h, p2) →
      scanMessage env text (pre ++ p :: post)
        = .ok (some ⟨p2, h, some m⟩, pre ++ p2 :: post)) := by
  induction pre with
  | nil =>
    constructor
    · intro e he
      rw [List.nil_append, scanMessage, if_pos (by simp [hk])]
      simp only [hc, hm, he]
    · intro h p2 hl
      rw [List.nil_append, scanMessage, if_pos (by simp [hk])]
      simp only [hc, hm, hl, List.nil_append]
  | cons q rest ih =>
    obtain ⟨ih1, ih2⟩ := ih (fun x hx => hpre x (List.mem_cons_of_mem _ hx))
    by_cases hqk : q.kind = "message"
    · obtain ⟨rq, hrq, hrm⟩ := hpre q (List.mem_cons_self _ _) hqk
      constructor
      · intro e he
        rw [List.cons_append, scanMessage, if_pos (by simp [hqk])]
        simp only [hrq, hrm, ih1 e he]
      · intro h p2 hl
        rw [List.cons_append, scanMessage, if_pos (by simp [hqk])]
        simp only [hrq, hrm, ih2 h p2 hl, List.cons_append]
    · constructor
      · intro e he
        rw [List.cons_append, scanMessage, if_neg (by simpa using hqk)]
        simp only [ih1 e he]
      · intro h p2 hl
        rw [List.cons_append, scanMessage, if_neg (by simpa using hqk)]
        simp only [ih2 h p2 hl, List.cons_append]

/-- When every compiled message pattern fails the unanchored search, the
message tier reports no result and leaves the list untouched. -/
theorem scanMessage_none {env : Env} {txt : String} {ps : List BasePattern}
    (h : ∀ p ∈ ps, p.kind = "message" →
      ∃ rq, p._compiled = some rq ∧ reSearch rq txt = none) :
    scanMessage env txt ps = .ok (none, ps) := by
  induction ps with
  | nil => rfl
  | cons p rest ih =>
    have ihr := ih (fun q hq => h q (List.mem_cons_of_mem _ hq))
    by_cases hk : p.kind = "message"
    · obtain ⟨rq, hrq, hrm⟩ := h p (List.mem_cons_self _ _) hk
      rw [scanMessage, if_pos (by simp [hk])]
      simp only [hrq, hrm, ihr]
    · rw [scanMessage, if_neg (by simpa using hk)]
      simp only [ihr]

/-- Every token `str.split()` produces is nonempty. -/
theorem pySplitWSAux_ne_empty :
    ∀ (cs acc : List Char), ∀ s ∈ pySplitWSAux cs acc, s.data ≠ [] := by
  intro cs
  induction cs with
  | nil =>
    intro acc s hs
    unfold pySplitWSAux at hs
    split at hs
    · simp at hs
    · rename_i hne
      rw [List.mem_singleton] at hs
      subst hs
      simpa [List.isEmpty_iff] using hne
  | cons c rest ih =>
    intro acc s hs
    unfold pySplitWSAux at hs
    split at hs
    · split at hs
      · exact ih [] s hs
      · rename_i hne
        rcases List.mem_cons.mp hs with rfl | h2
        · simpa [List.isEmpty_iff] using hne
        · exact ih [] s h2
    · exact ih (c :: acc) s hs

/-- A token the command-feature extraction returns is a truthy string,
so the command tier is attempted whenever extraction produced a token. -/
theorem extractCmd_token_truthy {t : Option String} {c : String}
    (h : extractCmd t = .ok (some c)) : pyTruthyStr c = true := by
  unfold extractCmd at h
  split at h
  · simp at h
  · rename_i s
    split at h
    · split at h
      · simp at h
      · rename_i tok rest2 heq
        have hc : tok = c := by simpa using h
        subst hc
        have hmem : tok ∈ pySplitWS (lstripSlashes s) := by
          rw [heq]
          exact List.mem_cons_self _ _
        have := pySplitWSAux_ne_empty (lstripSlashes s).data [] tok hmem
        simpa [pyTruthyStr, List.isEmpty_iff] using this
    · simp at h

/-- A scan's successful outcome touches at most the winning pattern: on
no result the list is returned unchanged, on a result it is the input
with the winner replaced by its loaded copy. -/
theorem scanCommand_state {env : Env} {c : String} :
    ∀ {ps : List BasePattern} {r : Option MatchResult} {ps2 : List BasePattern},
    scanCommand env c ps = .ok (r, ps2) →
    (r = none → ps2 = ps) ∧
    (∀ mr, r = some mr → ∃ i, ∃ hi : i < ps.length, ps2 = ps.set i mr.pattern ∧
      (ps.get ⟨i, hi⟩).load_handler env = .ok (mr.handler, mr.pattern)) := by
  intro ps
  induction ps with
  | nil =>
    intro r ps2 h
    have h2 : none = r ∧ ps2 = [] := by simpa [scanCommand] using h
    obtain ⟨rfl, rfl⟩ := h2
    exact ⟨fun _ => rfl, fun mr hmr => by simp at hmr⟩
  | cons p rest ih =>
    intro r ps2 h
    rw [scanCommand] at h
    split at h
    · rcases hl : p.load_handler env with e | pr
      · simp [hl] at h
      · obtain ⟨hobj, hp2⟩ := pr
        simp only [hl, Except.ok.injEq, Prod.mk.injEq] at h
        obtain ⟨rfl, rfl⟩ := h
        refine ⟨fun hn => by simp at hn, fun mr hmr => ?_⟩
        obtain rfl : mr = ⟨hp2, hobj, none⟩ := by simpa using hmr.symm
        exact ⟨0, by simp, by simp [List.set], hl⟩
    · rcases hrec : scanCommand env c rest with e | pr
      · simp [hrec] at h
      · obtain ⟨r0, rest2⟩ := pr
        simp only [hrec, Except.ok.injEq, Prod.mk.injEq] at h
        obtain ⟨rfl, rfl⟩ := h
        obtain ⟨ih1, ih2⟩ := ih hrec
        refine ⟨fun hn => by rw [ih1 hn], fun mr hmr => ?_⟩
        obtain ⟨i, hi, hset, hload⟩ := ih2 mr hmr
        exact ⟨i + 1, Nat.succ_lt_succ hi, by simp [hset], by simpa using hload⟩

/-- State discipline of the callback tier, as for the command tier. -/
theorem scanCallback_state {env : Env} {dta : String} :
    ∀ {ps : List BasePattern} {r : Option MatchResult} {ps2 : List BasePattern},
    scanCallback env dta ps = .ok (r, ps2) →
    (r = none → ps2 = ps) ∧
    (∀ mr, r = some mr → ∃ i, ∃ hi : i < ps.length, ps2 = ps.set i mr.pattern ∧
      (ps.get ⟨i, hi⟩).load_handler env = .ok (mr.handler, mr.pattern)) := by
  intro ps
  induction ps with
  | nil =>
    intro r ps2 h
    have h2 : none = r ∧ ps2 = [] := by simpa [scanCallback] using h
    obtain ⟨rfl, rfl⟩ := h2
    exact ⟨fun _ => rfl, fun mr hmr => by simp at hmr⟩
  | cons p rest ih =>
    intro r ps2 h
    rw [scanCallback] at h
    split at h
    · rcases hc : p._compiled with _ | rr
      · simp [hc] at h
      · rcases hm : reMatch rr dta with _ | m
        · rcases hrec : scanCallback env dta rest with e | pr
          · simp [hc, hm, hrec] at h
          · obtain ⟨r0, rest2⟩ := pr
            simp only [hc, hm, hrec, Except.ok.injEq, Prod.mk.injEq] at h
            obtain ⟨rfl, rfl⟩ := h
            obtain ⟨ih1, ih2⟩ := ih hrec
            refine ⟨fun hn => by rw [ih1 hn], fun mr hmr => ?_⟩
            obtain ⟨i, hi, hset, hload⟩ := ih2 mr hmr
            exact ⟨i + 1, Nat.succ_lt_succ hi, by simp [hset], by simpa using hload⟩
        · rcases hl : p.load_handler env with e | pr
          · simp [hc, hm, hl] at h
          · obtain ⟨hobj, hp2⟩ := pr
            simp only [hc, hm, hl, Except.ok.injEq, Prod.mk.injEq] at h
            obtain ⟨rfl, rfl⟩ := h
            refine ⟨fun hn => by simp at hn, fun mr hmr => ?_⟩
            obtain rfl : mr = ⟨hp2, hobj, some m⟩ := by simpa using hmr.symm
            exact ⟨0, by simp, by simp [List.set], hl⟩
    · rcases hrec : scanCallback env dta rest with e | pr
      · simp [hrec] at h
      · obtain ⟨r0, rest2⟩ := pr
        simp only [hrec, Except.ok.injEq, Prod.mk.injEq] at h
        obtain ⟨rfl, rfl⟩ := h
        obtain ⟨ih1, ih2⟩ := ih hrec
        refine ⟨fun hn => by rw [ih1 hn], fun mr hmr => ?_⟩
        obtain ⟨i, hi, hset, hload⟩ := ih2 mr hmr
        exact ⟨i + 1, Nat.succ_lt_succ hi, by simp [hset], by simpa using hload⟩

/-- State discipline of the message tier, as for the command tier. -/
theorem scanMessage_state {env : Env} {txt : String} :
    ∀ {ps : List BasePattern} {r : Option MatchResult} {ps2 : List BasePattern},
    scanMessage env txt ps = .ok (r, ps2) →
    (r = none → ps2 = ps) ∧
    (∀ mr, r = some mr → ∃ i, ∃ hi : i < ps.length, ps2 = ps.set i mr.pattern ∧
      (ps.get ⟨i, hi⟩).load_handler env = .ok (mr.handler, mr.pattern)) := by
  intro ps
  induction ps with
  | nil =>
    intro r ps2 h
    have h2 : none = r ∧ ps2 = [] := by simpa [scanMessage] using h
    obtain ⟨rfl, rfl⟩ := h2
    exact ⟨fun _ => rfl, fun mr hmr => by simp at hmr⟩
  | cons p rest ih =>
    intro r ps2 h
    rw [scanMessage] at h
    split at h
    · rcases hc : p._compiled with _ | rr
      · simp [hc] at h
      · rcases hm : reSearch rr txt with _ | m
        · rcases hrec : scanMessage env txt rest with e | pr
          · simp [hc, hm, hrec] at h
          · obtain ⟨r0, rest2⟩ := pr
            simp only [hc, hm, hrec, Except.ok.injEq, Prod.mk.injEq] at h
            obtain ⟨rfl, rfl⟩ := h
            obtain ⟨ih1, ih2⟩ := ih hrec
            refine ⟨fun hn => by rw [ih1 hn], fun mr hmr => ?_⟩
            obtain ⟨i, hi, hset, hload⟩ := ih2 mr hmr
            exact ⟨i + 1, Nat.succ_lt_succ hi, by simp [hset], by simpa using hload⟩
        · rcases hl : p.load_handler env with e | pr
          · simp [hc, hm, hl] at h
          · obtain ⟨hobj, hp2⟩ := pr
            simp only [hc, hm, hl, Except.ok.injEq, Prod.mk.injEq] at h
            obtain ⟨rfl, rfl⟩ := h
            refine ⟨fun hn => by simp at hn, fun mr hmr => ?_⟩
            obtain rfl : mr = ⟨hp2, hobj, some m⟩ := by simpa using hmr.symm
            exact ⟨0, by simp, by simp [List.set], hl⟩
    · rcases hrec : scanMessage env txt rest with e | pr
      · simp [hrec] at h
      · obtain ⟨r0, rest2⟩ := pr
        simp only [hrec, Except.ok.injEq, Prod.mk.injEq] at h
        obtain ⟨rfl, rfl⟩ := h
        obtain ⟨ih1, ih2⟩ := ih hrec
        refine ⟨fun hn => by rw [ih1 hn], fun mr hmr => ?_⟩
        obtain ⟨i, hi, hset, hload⟩ := ih2 mr hmr
        exact ⟨i + 1, Nat.succ_lt_succ hi, by simp [hset], by simpa using hload⟩

/-- When feature extraction yields a (necessarily truthy) command token,
`match`'s outcome is the command scan's outcome whenever that scan
returns a winner or raises. -/
theorem matchFull_command {d : Dispatcher} {env : Env} {u : Update} {t : String}
    (hcmd : extractCmd u.text = .ok (some t)) (ht : pyTruthyStr t = true) :
    (∀ e, scanCommand env t d.patterns = .error e → d.matchFull env u = .error e) ∧
    (∀ mr ps2, scanCommand env t d.patterns = .ok (some mr, ps2) →
      d.matchFull env u = .ok (some mr, ps2)) := by
  constructor
  · intro e he
    unfold Dispatcher.matchFull
    simp only [hcmd, ht, if_true, he]
  · intro mr ps2 hs
    unfold Dispatcher.matchFull
    simp only [hcmd, ht, if_true, hs]

/-- State discipline of the message block: no result leaves the list
unchanged; a result replaces exactly the winner. -/
theorem tier3run_state {env : Env} {txt : Option String} {ps : List BasePattern}
    {r : Option MatchResult} {ps2 : List BasePattern}
    (h : tier3run env txt ps = .ok (r, ps2)) :
    (r = none → ps2 = ps) ∧
    (∀ mr, r = some mr → ∃ i, i < ps.length ∧ ps2 = ps.set i mr.pattern) := by
  unfold tier3run at h
  rcases txt with _ | t
  · have h2 : none = r ∧ ps = ps2 := by simpa using h
    obtain ⟨rfl, rfl⟩ := h2
    exact ⟨fun _ => rfl, fun mr hmr => by simp at hmr⟩
  · dsimp only at h
    cases ht : pyTruthyStr t with
    | false =>
      rw [if_neg (by simp [ht])] at h
      have h2 : none = r ∧ ps = ps2 := by simpa using h
      obtain ⟨rfl, rfl⟩ := h2
      exact ⟨fun _ => rfl, fun mr hmr => by simp at hmr⟩
    | true =>
      rw [if_pos ht] at h
      obtain ⟨h1, h2⟩ := scanMessage_state h
      exact ⟨h1, fun mr hmr => by
        obtain ⟨i, hi, hset, _⟩ := h2 mr hmr
        exact ⟨i, hi, hset⟩⟩

/-- State discipline of the callback block followed by the message
block. -/
theorem tier23run_state {env : Env} {u : Update} {ps : List BasePattern}
    {r : Option MatchResult} {ps2 : List BasePattern}
    (h : tier23run env u ps = .ok (r, ps2)) :
    (r = none → ps2 = ps) ∧
    (∀ mr, r = some mr → ∃ i, i < ps.length ∧ ps2 = ps.set i mr.pattern) := by
  unfold tier23run at h
  rcases hcb : u.callbackData with _ | dta
  · rw [hcb] at h
    exact tier3run_state (by simpa using h)
  · rw [hcb] at h
    dsimp only at h
    cases ht : pyTruthyStr dta with
    | false =>
      rw [if_neg (by simp [ht])] at h
      exact tier3run_state (by simpa using h)
    | true =>
      rw [if_pos ht] at h
      rcases hs : scanCallback env dta ps with e | pr
      · simp [hs] at h
      · obtain ⟨r2, psB⟩ := pr
        rw [hs] at h
        obtain ⟨hs1, hs2⟩ := scanCallback_state hs
        rcases r2 with _ | mr2
        · have hps : psB = ps := hs1 rfl
          subst hps
          exact tier3run_state (by simpa using h)
        · have h2 : some mr2 = r ∧ psB = ps2 := by simpa using h
          obtain ⟨rfl, rfl⟩ := h2
          refine ⟨fun hn => by simp at hn, fun mr hmr => ?_⟩
          obtain rfl : mr2 = mr := by simpa using hmr
          obtain ⟨i, hi, hset, _⟩ := hs2 mr2 rfl
          exact ⟨i, hi, hset⟩

/-- `match` mutates at most the winning pattern's handler cache: a
no-result outcome returns the pattern list unchanged, a winning outcome
replaces exactly the winner. -/
theorem matchFull_state {d : Dispatcher} {env : Env} {u : Update}
    {r : Option MatchResult} {ps2 : List BasePattern}
    (h : d.matchFull env u = .ok (r, ps2)) :
    (r = none → ps2 = d.patterns) ∧
    (∀ mr, r = some mr → ∃ i, i < d.patterns.length ∧ ps2 = d.patterns.set i mr.pattern) := by
  unfold Dispatcher.matchFull at h
  rcases hx : extractCmd u.text with e | cmdOpt
  · simp [hx] at h
  · rw [hx] at h
    rcases cmdOpt with _ | c
    · exact tier23run_state (by simpa using h)
    · dsimp only at h
      cases ht : pyTruthyStr c with
      | false =>
        rw [if_neg (by simp [ht])] at h
        exact tier23run_state (by simpa using h)
      | true =>
        rw [if_pos ht] at h
        rcases hs : scanCommand env c d.patterns with e | pr
        · simp [hs] at h
        · obtain ⟨r1, psA⟩ := pr
          rw [hs] at h
          obtain ⟨hs1, hs2⟩ := scanCommand_state hs
          rcases r1 with _ | mr1
          · have hps : psA = d.patterns := hs1 rfl
            subst hps
            exact tier23run_state (by simpa using h)
          · have h2 : some mr1 = r ∧ psA = ps2 := by simpa using h
            obtain ⟨rfl, rfl⟩ := h2
            refine ⟨fun hn => by simp at hn, fun mr hmr => ?_⟩
            obtain rfl : mr1 = mr := by simpa using hmr
            obtain ⟨i, hi, hset, _⟩ := hs2 mr1 rfl
            exact ⟨i, hi, hset⟩

/-- `compile` only writes the `_compiled` memo slot, and after a
successful compile a regex-kind pattern is compiled. -/
theorem compile_preserves {p p2 : BasePattern} (h : p.compile = .ok p2) :
    p2.kind = p.kind ∧ p2.pattern = p.pattern ∧ p2.handler_path = p.handler_path ∧
    p2.name = p.name ∧ p2.ns = p.ns ∧ p2._handler = p._handler ∧
    ((p2.kind = "callback" ∨ p2.kind = "message") → p2._compiled ≠ none) := by
  unfold BasePattern.compile at h
  split at h
  · rcases hp : parseRegex p.pattern with _ | rr
    · simp [hp] at h
    · rw [hp] at h
      have h2 : { p with _compiled := some rr } = p2 := by simpa using h
      subst h2
      exact ⟨rfl, rfl, rfl, rfl, rfl, rfl, fun _ => by simp⟩
  · rename_i hcond
    have h2 : p = p2 := by simpa using h
    subst h2
    refine ⟨rfl, rfl, rfl, rfl, rfl, rfl, fun hk hnone => ?_⟩
    exact hcond ⟨hk, hnone⟩

/-- `compile` is idempotent: recompiling a successfully compiled pattern
is a no-op. -/
theorem compile_idempotent {p p2 : BasePattern} (h : p.compile = .ok p2) :
    p2.compile = .ok p2 := by
  unfold BasePattern.compile at h ⊢
  split at h
  · rename_i hcond
    rcases hp : parseRegex p.pattern with _ | rr
    · simp [hp] at h
    · rw [hp] at h
      have h2 : { p with _compiled := some rr } = p2 := by simpa using h
      subst h2
      rw [if_neg]
      simp
  · rename_i hcond
    have h2 : p = p2 := by simpa using h
    subst h2
    rw [if_neg hcond]

/-- The constructor loop compiles pointwise: every output pattern is the
successful compile of the input pattern at the same position, and the
handler caches are untouched. -/
theorem compileAll_ok {ps ps2 : List BasePattern} (h : compileAll ps = .ok ps2) :
    (∀ p2 ∈ ps2, ∃ p ∈ ps, p.compile = .ok p2) ∧
    ps2.map BasePattern._handler = ps.map BasePattern._handler := by
  induction ps generalizing ps2 with
  | nil =>
    have h2 : ps2 = [] := by simpa [compileAll] using h.symm
    subst h2
    exact ⟨by simp, by simp⟩
  | cons p rest ih =>
    rw [compileAll] at h
    rcases hc : p.compile with e | p2a
    · simp [hc] at h
    · rcases hr : compileAll rest with e | rest2
      · simp [hc, hr] at h
      · simp only [hc, hr, Except.ok.injEq] at h
        subst h
        obtain ⟨ihmem, ihmap⟩ := ih hr
        constructor
        · intro q hq
          rcases List.mem_cons.mp hq with rfl | h2
          · exact ⟨p, List.mem_cons_self _ _, hc⟩
          · obtain ⟨p0, hp0, hp0c⟩ := ihmem q h2
            exact ⟨p0, List.mem_cons_of_mem _ hp0, hp0c⟩
        · simp only [List.map_cons, ihmap, (compile_preserves hc).2.2.2.2.2.1]

/-- Constructing a `Dispatcher` is exactly running the compile loop. -/
theorem init_ok {ps : List BasePattern} {d : Dispatcher}
    (h : Dispatcher.init ps = .ok d) : compileAll ps = .ok d.patterns := by
  unfold Dispatcher.init at h
  rcases hc : compileAll ps with e | ps2
  · simp [hc] at h
  · simp only [hc, Except.ok.injEq] at h
    subst h
    rfl

/-! ### Concrete fixtures used by the claim instances -/

/-- A handler environment: module `mod` holds callables `h` and `g` and
a non-callable `nc`. -/
def envDemo : Env :=
  ⟨[("mod", [("h", ⟨1, true⟩), ("g", ⟨2, true⟩), ("nc", ⟨3, false⟩)])]⟩

/-- Direct pattern of module `a` in the cyclic include graph. -/
def patA : BasePattern := command "a" "mod.h" (some "na")

/-- Direct pattern of module `b` in the cyclic include graph. -/
def patB : BasePattern := command "b" "mod.h" (some "nb")

/-- A cyclic include graph: module `a` includes `b` and `b` includes
`a`. -/
def envCyclic : RouteEnv :=
  ⟨[("a", [("urlpatterns", [.pat patA, .inc ⟨"b", none⟩])]),
    ("b", [("urlpatterns", [.pat patB, .inc ⟨"a", none⟩])])]⟩

/-- A pattern with no namespace of its own, in module `sub`. -/
def patN : BasePattern := command "n" "mod.h" (some "n")

/-- A pattern that already declares `namespace="other"`, in `sub`. -/
def patO : BasePattern := command "m" "mod.h" (some "m") (some "other")

/-- A pattern with no namespace of its own, in the nested module
`deep`. -/
def patD : BasePattern := command "d" "mod.h" (some "d")

/-- Module `sub` nests an include of `deep`; flattening
`include("sub", namespace="ns")` exercises recursive namespace
propagation. -/
def envNested : RouteEnv :=
  ⟨[("sub", [("urlpatterns", [.pat patN, .pat patO, .inc ⟨"deep", none⟩])]),
    ("deep", [("urlpatterns", [.pat patD])])]⟩

/-! ### C1 — tier priority -/

/-- C1 counterexample: the update carries text `"/start"` (exposing
command token `"start"`) and callback data `"buy_42"` that a declared
callback pattern matches; no command pattern equals the token, and
`match` returns the callback-tier result — falsifying the claim's
"never a callback-tier or message-tier result" as stated. -/
theorem tier_priority_counterexample :
    extractCmd (some "/start") = .ok (some "start") ∧
    ∃ d, Dispatcher.init [callback "^buy_(\\d+)$" "mod.h"] = .ok d ∧
      ∃ mr, d.matchRes envDemo ⟨some "/start", some "buy_42"⟩ = .ok (some mr) ∧
        mr.pattern.kind = "callback" ∧ mr.pattern.kind ≠ "command" :=
  ⟨rfl, _, rfl, _, rfl, rfl, by decide⟩

/-- C1 (amended): for an update exposing a command token that some
command pattern equals (alongside any callback/message-matching
content), `match`'s outcome is the command tier's: the first matching
command pattern's result with no capture data, or that pattern's
handler-resolution error — never a callback- or message-tier result. -/
theorem tier_priority_amended (env : Env) (d : Dispatcher) (u : Update) (t : String)
    (hcmd : extractCmd u.text = .ok (some t))
    (hex : ∃ p ∈ d.patterns, p.kind = "command" ∧ p.pattern = t) :
    (∃ e, d.matchRes env u = .error (.handler e)) ∨
    (∃ mr, d.matchRes env u = .ok (some mr) ∧ mr.pattern.kind = "command" ∧
      mr.pattern.pattern = t ∧ mr.m = none) := by
  have ht := extractCmd_token_truthy hcmd
  obtain ⟨pre, p, post, hsplit, hp, hpre⟩ :=
    exists_first_split (fun q => q.kind = "command" ∧ q.pattern = t) hex
  obtain ⟨hscanE, hscanOk⟩ := @scanCommand_split env t pre post p hpre hp.1 hp.2
  obtain ⟨hfE, hfOk⟩ := @matchFull_command d env u t hcmd ht
  rcases hl : p.load_handler env with e | pr
  · left
    refine ⟨e, ?_⟩
    have hm := hfE (.handler e) (by rw [hsplit]; exact hscanE e hl)
    unfold Dispatcher.matchRes
    rw [hm]
    rfl
  · obtain ⟨hobj, p2⟩ := pr
    right
    obtain ⟨hk, hpat, _, _, _, _, _⟩ := load_handler_fields hl
    refine ⟨⟨p2, hobj, none⟩, ?_, hk.trans hp.1, hpat.trans hp.2, rfl⟩
    have hm := hfOk ⟨p2, hobj, none⟩ (pre ++ p2 :: post)
      (by rw [hsplit]; exact hscanOk hobj p2 hl)
    unfold Dispatcher.matchRes
    rw [hm]
    rfl

/-- C1 witness: the amended theorem applied at a concrete dispatcher
holding one command pattern `start`, update text `"/start"`. -/
theorem tier_priority_amended_witness :
    (extractCmd (some "/start") = .ok (some "start")) ∧
    ((∃ e, Dispatcher.matchRes ⟨[command "start" "mod.h"]⟩ envDemo
        ⟨some "/start", none⟩ = .error (.handler e)) ∨
     (∃ mr, Dispatcher.matchRes ⟨[command "start" "mod.h"]⟩ envDemo
        ⟨some "/start", none⟩ = .ok (some mr) ∧ mr.pattern.kind = "command" ∧
        mr.pattern.pattern = "start" ∧ mr.m = none)) :=
  ⟨rfl, tier_priority_amended envDemo ⟨[command "start" "mod.h"]⟩
    ⟨some "/start", none⟩ "start" rfl
    ⟨command "start" "mod.h", by simp, rfl, rfl⟩⟩

/-! ### C2 — anchoring and ordering semantics -/

/-- C2: within the callback tier the flat list is scanned in declaration
order and the first callback pattern whose compiled regex matches
anchored at position 0 wins (`reMatch` only ever attempts position 0 and
need not consume the whole string); within the message tier the first
message pattern whose regex matches anywhere (unanchored `reSearch`)
wins.  Concretely, `^buy_(\d+)$` matches data `"buy_42"` capturing
`"42"` and fails on `"xbuy_42"`, and `hello` matches
`"well hello there"` at offset 5 ≠ 0. -/
theorem callback_anchor_message_search :
    (∀ r s m, reMatch r s = some m → m.start = 0) ∧
    (∀ (env : Env) (data : String) (pre post : List BasePattern) (p : BasePattern)
        (r : Regex) (m : RMatch),
      (∀ q ∈ pre, q.kind = "callback" → ∃ rq, q._compiled = some rq ∧ reMatch rq data = none) →
      p.kind = "callback" → p._compiled = some r → reMatch r data = some m →
      ∀ h p2, p.load_handler env = .ok (h, p2) →
        scanCallback env data (pre ++ p :: post)
          = .ok (some ⟨p2, h, some m⟩, pre ++ p2 :: post)) ∧
    (∀ (env : Env) (txt : String) (pre post : List BasePattern) (p : BasePattern)
        (r : Regex) (m : RMatch),
      (∀ q ∈ pre, q.kind = "message" → ∃ rq, q._compiled = some rq ∧ reSearch rq txt = none) →
      p.kind = "message" → p._compiled = some r → reSearch r txt = some m →
      ∀ h p2, p.load_handler env = .ok (h, p2) →
        scanMessage env txt (pre ++ p :: post)
          = .ok (some ⟨p2, h, some m⟩, pre ++ p2 :: post)) ∧
    (∃ d, Dispatcher.init [callback "^buy_(\\d+)$" "mod.h"] = .ok d ∧
      (∃ mr, d.matchRes envDemo ⟨none, some "buy_42"⟩ = .ok (some mr) ∧
        mr.m = some ⟨0, 6, ["42"]⟩) ∧
      d.matchRes envDemo ⟨none, some "xbuy_42"⟩ = .ok none) ∧
    (∃ d, Dispatcher.init [message "hello" "mod.h"] = .ok d ∧
      ∃ mr, d.matchRes envDemo ⟨some "well hello there", none⟩ = .ok (some mr) ∧
        mr.m = some ⟨5, 10, []⟩ ∧ (5 : Nat) ≠ 0) := by
  refine ⟨?_, ?_, ?_, ⟨_, rfl, ⟨_, rfl, rfl⟩, rfl⟩, ⟨_, rfl, _, rfl, rfl, by decide⟩⟩
  · intro r s m h
    unfold reMatch reMatchAt at h
    split at h
    · simp at h
    · simp only [Option.some.injEq] at h
      rw [← h]
  · exact fun env data pre post p r m hpre hk hc hm h p2 hl =>
      (scanCallback_split pre post p hpre hk hc hm).2 h p2 hl
  · exact fun env txt pre post p r m hpre hk hc hm h p2 hl =>
      (scanMessage_split pre post p hpre hk hc hm).2 h p2 hl

/-- A compiled one-character callback pattern, for the C2 witness. -/
def cbX : BasePattern :=
  { kind := "callback", pattern := "x", handler_path := "mod.h",
    _compiled := some (.chr 'x') }

/-- `cbX` after its handler is resolved against `envDemo`. -/
def cbXloaded : BasePattern :=
  { cbX with _handler := some ⟨1, true⟩ }

/-- C2 witness: the callback-tier ordering conjunct applied to a
one-pattern list whose compiled regex is the single character `x`. -/
theorem callback_anchor_message_search_witness :
    (reMatch (.chr 'x') "x" = some ⟨0, 1, []⟩) ∧
    scanCallback envDemo "x" ([] ++ cbX :: [])
      = .ok (some ⟨cbXloaded, ⟨1, true⟩, some ⟨0, 1, []⟩⟩, [] ++ cbXloaded :: []) :=
  ⟨rfl, callback_anchor_message_search.2.1 envDemo "x" [] [] cbX (.chr 'x') ⟨0, 1, []⟩
    (by simp) rfl rfl rfl ⟨1, true⟩ cbXloaded rfl⟩

/-! ### C3 — cycle termination -/

/-- C3: on the cyclic include graph `a ↔ b`, `flatten` terminates (its
definition rests on the well-founded measure `flattenMeasure`, the
formalization of the visited-set guard) and produces each module's
direct patterns exactly once. -/
theorem flatten_cycle_terminates :
    flatten envCyclic [.inc ⟨"a", none⟩] = .ok [patA, patB] ∧
    [patA, patB].count patA = 1 ∧ [patA, patB].count patB = 1 := by
  refine ⟨?_, by decide, by decide⟩
  have ha : resolveTarget envCyclic "a" = .ok [.pat patA, .inc ⟨"b", none⟩] := rfl
  have hb : resolveTarget envCyclic "b" = .ok [.pat patB, .inc ⟨"a", none⟩] := rfl
  simp [flatten, flattenGo_nil, flattenGo_pat, flattenGo_inc_seen, flattenGo_inc_ok,
    ha, hb, stampEntry, pyTruthy]

/-! ### C4 — namespace propagation -/

/-- C4: `patterns(namespace, ...)` stamps the namespace only onto direct
`Pattern` children lacking one, passes already-namespaced patterns
and every `Include` through unmodified (position by position), while
`flatten` propagates an include's namespace recursively: in the nested
fixture, the namespace-less pattern gets `fq_name "ns:n"`, the
already-namespaced one keeps `"other:m"`, and a pattern reached through
a nested include gets `"ns:d"`. -/
theorem namespace_propagation :
    (∀ (ns : Option String) (entries : List Entry) (i : Nat) (inc2 : Include),
      entries[i]? = some (.inc inc2) →
      (patterns ns entries)[i]? = some (.inc inc2)) ∧
    (∀ (ns : Option String) (entries : List Entry) (i : Nat) (p : BasePattern),
      pyTruthy ns = true → entries[i]? = some (.pat p) → p.ns = none →
      (patterns ns entries)[i]? = some (.pat { p with ns := ns })) ∧
    (∀ (ns : Option String) (entries : List Entry) (i : Nat) (p : BasePattern) (o : String),
      entries[i]? = some (.pat p) → p.ns = some o →
      (patterns ns entries)[i]? = some (.pat p)) ∧
    ((flatten envNested [.inc ⟨"sub", some "ns"⟩]).map (fun l => l.map BasePattern.fq_name)
      = .ok [some "ns:n", some "other:m", some "ns:d"]) := by
  refine ⟨?_, ?_, ?_, ?_⟩
  · intro ns entries i inc2 h
    unfold patterns
    rw [List.getElem?_map, h]
    rfl
  · intro ns entries i p hns h hpns
    unfold patterns
    rw [List.getElem?_map, h]
    simp [hns, hpns]
  · intro ns entries i p o h hpns
    unfold patterns
    rw [List.getElem?_map, h]
    simp [hpns]
  · have hs : resolveTarget envNested "sub" = .ok [.pat patN, .pat patO, .inc ⟨"deep", none⟩] := rfl
    have hd : resolveTarget envNested "deep" = .ok [.pat patD] := rfl
    have hts : pyTruthyStr "ns" = true := rfl
    have hstep : flatten envNested [.inc ⟨"sub", some "ns"⟩]
        = .ok [{ patN with ns := some "ns" }, patO, { patD with ns := some "ns" }] := by
      simp [flatten, flattenGo_nil, flattenGo_pat, flattenGo_inc_seen, flattenGo_inc_ok,
        hs, hd, stampEntry, pyTruthy, hts, patN, patO, patD, command]
    rw [hstep]
    rfl

/-- C4 witness: the `Include`-passthrough conjunct and the stamping
conjunct of `patterns` applied at index 0 of concrete entry lists. -/
theorem namespace_propagation_witness :
    (([Entry.inc ⟨"t", none⟩][0]? = some (.inc ⟨"t", none⟩)) ∧
      (patterns (some "x") [.inc ⟨"t", none⟩])[0]? = some (.inc ⟨"t", none⟩)) ∧
    ((patterns (some "x") [.pat patN])[0]? = some (.pat { patN with ns := some "x" })) :=
  ⟨⟨rfl, namespace_propagation.1 (some "x") _ 0 ⟨"t", none⟩ rfl⟩,
    namespace_propagation.2.1 (some "x") _ 0 patN rfl rfl rfl⟩

/-! ### C5 — no-match totality (code bug) -/

/-- C5 (code bug): `Dispatcher.match` raises `IndexError` — from
`text.lstrip("/").split()[0]` — on an update whose text is only slashes
(optionally with trailing whitespace), for any pattern list whatsoever,
instead of returning `None`. -/
theorem match_raises_indexerror_on_slashes (env : Env) (ps : List BasePattern) :
    Dispatcher.matchRes ⟨ps⟩ env ⟨some "/", none⟩ = .error .indexError ∧
    Dispatcher.matchRes ⟨ps⟩ env ⟨some "/", some "data"⟩ = .error .indexError ∧
    Dispatcher.matchRes ⟨ps⟩ env ⟨some "// ", none⟩ = .error .indexError :=
  ⟨rfl, rfl, rfl⟩

/-! ### C6 — command token extraction -/

/-- The claim's token rule, formalized from the spec's words: "the
substring after stripping the leading slash, up to the first
whitespace".  This is the comparison definition for the refutation; the
code's rule is `extractCmd` above. -/
def specCommandToken (t : String) : String :=
  String.mk ((t.data.drop 1).takeWhile (fun c => !c.isWhitespace))

/-- C6 counterexample: on text `"//start"` the claim's token is
`"/start"`, but the code strips every leading slash, so the command tier
selects the pattern `"start"` — a pattern not equal to the claim's
token. -/
theorem command_token_counterexample :
    specCommandToken "//start" = "/start" ∧
    ∃ d, Dispatcher.init [command "start" "mod.h"] = .ok d ∧
      ∃ mr, d.matchRes envDemo ⟨some "//start", none⟩ = .ok (some mr) ∧
        mr.pattern.pattern = "start" ∧ mr.pattern.pattern ≠ specCommandToken "//start" :=
  ⟨rfl, _, rfl, _, rfl, rfl, by decide⟩

/-- C6 (amended): the command token is the first whitespace-delimited
token of the text after stripping all leading slashes — extraction
raises `IndexError` when no token remains — and the command tier selects
the first pattern with kind `command` whose `pattern` equals that token
under exact string equality. -/
theorem command_token_amended :
    (∀ t : String, pyTruthyStr t = true → startsWithSlash t = true →
      pySplitWS (lstripSlashes t) = [] → extractCmd (some t) = .error .indexError) ∧
    (∀ (t c : String) (rest2 : List String), pyTruthyStr t = true →
      startsWithSlash t = true →
      pySplitWS (lstripSlashes t) = c :: rest2 → extractCmd (some t) = .ok (some c)) ∧
    (∀ (env : Env) (pre post : List BasePattern) (p : BasePattern)
        (t c : String) (rest2 : List String) (cb : Option String),
      pyTruthyStr t = true → startsWithSlash t = true →
      pySplitWS (lstripSlashes t) = c :: rest2 →
      (∀ q ∈ pre, ¬(q.kind = "command" ∧ q.pattern = c)) →
      p.kind = "command" → p.pattern = c →
      ∀ h p2, p.load_handler env = .ok (h, p2) →
        Dispatcher.matchRes ⟨pre ++ p :: post⟩ env ⟨some t, cb⟩
          = .ok (some ⟨p2, h, none⟩)) := by
  have hext : ∀ (t c : String) (rest2 : List String), pyTruthyStr t = true →
      startsWithSlash t = true → pySplitWS (lstripSlashes t) = c :: rest2 →
      extractCmd (some t) = .ok (some c) := by
    intro t c rest2 h1 h2 h3
    unfold extractCmd
    dsimp only
    rw [if_pos (by simp [h1, h2])]
    simp only [h3]
  refine ⟨?_, hext, ?_⟩
  · intro t h1 h2 h3
    unfold extractCmd
    dsimp only
    rw [if_pos (by simp [h1, h2])]
    simp only [h3]
  · intro env pre post p t c rest2 cb h1 h2 h3 hpre hk hp hobj p2 hl
    have hcmd : extractCmd (some t) = .ok (some c) := hext t c rest2 h1 h2 h3
    have htc : pyTruthyStr c = true := extractCmd_token_truthy hcmd
    obtain ⟨-, hfOk⟩ := @matchFull_command ⟨pre ++ p :: post⟩ env ⟨some t, cb⟩ c hcmd htc
    have hscan := (@scanCommand_split env c pre post p hpre hk hp).2 hobj p2 hl
    have hm := hfOk ⟨p2, hobj, none⟩ (pre ++ p2 :: post) hscan
    unfold Dispatcher.matchRes
    rw [hm]
    rfl

/-- C6 witness: the amended selection rule applied to the `"//start"`
input with one command pattern `"start"`. -/
theorem command_token_amended_witness :
    (pySplitWS (lstripSlashes "//start") = ["start"]) ∧
    Dispatcher.matchRes ⟨[] ++ command "start" "mod.h" :: []⟩ envDemo
        ⟨some "//start", none⟩
      = .ok (some ⟨{ command "start" "mod.h" with _handler := some ⟨1, true⟩ },
          ⟨1, true⟩, none⟩) :=
  ⟨rfl, command_token_amended.2.2 envDemo [] [] (command "start" "mod.h")
    "//start" "start" [] none rfl rfl rfl (by simp) rfl rfl
    ⟨1, true⟩ { command "start" "mod.h" with _handler := some ⟨1, true⟩ } rfl⟩

/-! ### C7 — eager, fail-fast regex compilation -/

/-- C7: dispatcher construction compiles every pattern (afterwards every
callback/message pattern carries a compiled regex); `compile` is
idempotent and a no-op for command-kind patterns (which never get a
compiled regex); an invalid regex source raises at construction time —
even with further patterns after it — and is not swallowed. -/
theorem eager_compile_fail_fast :
    (∀ ps d, Dispatcher.init ps = .ok d → ∀ p ∈ d.patterns,
      (p.kind = "callback" ∨ p.kind = "message") → p._compiled ≠ none) ∧
    (∀ p p2 : BasePattern, p.compile = .ok p2 → p2.compile = .ok p2) ∧
    (∀ p : BasePattern, p.kind = "command" → p.compile = .ok p) ∧
    (Dispatcher.init [callback "(" "mod.h", command "x" "mod.h"]
      = .error (.invalidRegex "(")) := by
  refine ⟨?_, ?_, ?_, rfl⟩
  · intro ps d hinit p hp hk
    obtain ⟨hmem, -⟩ := compileAll_ok (init_ok hinit)
    obtain ⟨p0, -, hc⟩ := hmem p hp
    exact (compile_preserves hc).2.2.2.2.2.2 hk
  · exact fun p p2 h => compile_idempotent h
  · intro p hk
    unfold BasePattern.compile
    rw [if_neg (by simp [hk])]

/-- C7 witness: the command no-op conjunct at a concrete pattern. -/
theorem eager_compile_fail_fast_witness :
    ((command "x" "mod.h").kind = "command") ∧
    (command "x" "mod.h").compile = .ok (command "x" "mod.h") :=
  ⟨rfl, eager_compile_fail_fast.2.2.1 (command "x" "mod.h") rfl⟩

/-! ### C8 — lazy, memoized handler loading -/

/-- C8: constructing a dispatcher never resolves a handler (the handler
caches pass through construction untouched, and construction with a
dangling `handler_path` succeeds; `init` consults no environment at
all); `load_handler` raises `HandlerLoaderError` exactly when the
reference is malformed, the module is unimportable, the attribute is
missing, or the attribute is not invocable; a successful resolution is
cached on the pattern and re-served for any environment without
re-resolving; and a `match` resolves only the winning pattern — on no
result the pattern list is untouched, on a win exactly the winner is
replaced. -/
theorem lazy_memoized_handler_loading :
    (∀ ps d, Dispatcher.init ps = .ok d →
      d.patterns.map BasePattern._handler = ps.map BasePattern._handler) ∧
    (∃ d, Dispatcher.init [message "hi" "no_such_module.no_attr"] = .ok d) ∧
    (∀ (env : Env) (p : BasePattern), p._handler = none →
      ((∃ e, p.load_handler env = .error e) ↔
        ((rpartitionDot p.handler_path).1 = "" ∨ (rpartitionDot p.handler_path).2 = "" ∨
         env.importModule (rpartitionDot p.handler_path).1 = none ∨
         (∃ m, env.importModule (rpartitionDot p.handler_path).1 = some m ∧
           pyGetattr m (rpartitionDot p.handler_path).2 = none) ∨
         (∃ m obj, env.importModule (rpartitionDot p.handler_path).1 = some m ∧
           pyGetattr m (rpartitionDot p.handler_path).2 = some obj ∧
           obj.callable = false)))) ∧
    (∀ (env : Env) (p : BasePattern) h p2, p.load_handler env = .ok (h, p2) →
      p2._handler = some h ∧ ∀ env2, p2.load_handler env2 = .ok (h, p2)) ∧
    (∀ (env : Env) (d : Dispatcher) (u : Update) r ps2,
      d.matchFull env u = .ok (r, ps2) →
      (r = none → ps2 = d.patterns) ∧
      (∀ mr, r = some mr → ∃ i, i < d.patterns.length ∧
        ps2 = d.patterns.set i mr.pattern)) := by
  refine ⟨?_, ⟨_, rfl⟩, ?_, ?_, ?_⟩
  · intro ps d hinit
    exact (compileAll_ok (init_ok hinit)).2
  · intro env p hnone
    constructor
    · rintro ⟨e, he⟩
      unfold BasePattern.load_handler at he
      rw [hnone] at he
      dsimp only at he
      split at he
      · rename_i hcond
        rcases hcond with h1 | h1
        · exact Or.inl h1
        · exact Or.inr (Or.inl h1)
      · split at he
        · rename_i him
          exact Or.inr (Or.inr (Or.inl him))
        · rename_i m him
          split at he
          · rename_i hga
            exact Or.inr (Or.inr (Or.inr (Or.inl ⟨m, him, hga⟩)))
          · rename_i obj hga
            split at he
            · rename_i hnc
              exact Or.inr (Or.inr (Or.inr (Or.inr
                ⟨m, obj, him, hga, by simpa using hnc⟩)))
            · simp at he
    · intro hcase
      unfold BasePattern.load_handler
      rw [hnone]
      dsimp only
      by_cases hm : (rpartitionDot p.handler_path).1 = ""
        ∨ (rpartitionDot p.handler_path).2 = ""
      · rw [if_pos hm]
        exact ⟨_, rfl⟩
      · rw [if_neg hm]
        rcases hcase with h1 | h1 | h1 | ⟨m, him, hga⟩ | ⟨m, obj, him, hga, hnc⟩
        · exact absurd (Or.inl h1) hm
        · exact absurd (Or.inr h1) hm
        · rw [h1]
          exact ⟨_, rfl⟩
        · rw [him]
          dsimp only
          rw [hga]
          exact ⟨_, rfl⟩
        · rw [him]
          dsimp only
          rw [hga]
          dsimp only
          rw [if_pos (by simp [hnc])]
          exact ⟨_, rfl⟩
  · intro env p h p2 hl
    have hcache := (load_handler_fields hl).2.2.2.2.2.2
    exact ⟨hcache, fun env2 => load_handler_cached hcache env2⟩
  · intro env d u r ps2 h
    exact matchFull_state h

/-- C8 witness: a concrete resolution against `envDemo`, its cache
write, and the cached result re-served against an empty environment. -/
theorem lazy_memoized_handler_loading_witness :
    ((command "x" "mod.h").load_handler envDemo
      = .ok (⟨1, true⟩, { command "x" "mod.h" with _handler := some ⟨1, true⟩ })) ∧
    ({ command "x" "mod.h" with _handler := some ⟨1, true⟩ } : BasePattern)._handler
      = some ⟨1, true⟩ ∧
    ({ command "x" "mod.h" with
        _handler := some ⟨1, true⟩ } : BasePattern).load_handler ⟨[]⟩
      = .ok (⟨1, true⟩, { command "x" "mod.h" with _handler := some ⟨1, true⟩ }) :=
  ⟨rfl,
   (lazy_memoized_handler_loading.2.2.2.1 envDemo (command "x" "mod.h")
     ⟨1, true⟩ { command "x" "mod.h" with _handler := some ⟨1, true⟩ } rfl).1,
   (lazy_memoized_handler_loading.2.2.2.1 envDemo (command "x" "mod.h")
     ⟨1, true⟩ { command "x" "mod.h" with _handler := some ⟨1, true⟩ } rfl).2 ⟨[]⟩⟩

/-! ### C9 — empty-string features are treated as absent -/

/-- C9: an empty message text behaves exactly like an absent one (no
command token is extracted and no message pattern is tried), an empty
callback payload behaves exactly like an absent one (no callback
pattern is tried, even one whose regex matches the empty string), and an
update carrying only empty strings yields absent for every dispatcher
over every pattern list. -/
theorem empty_string_features_absent :
    (∀ (env : Env) (d : Dispatcher) (cb : Option String),
      d.matchFull env ⟨some "", cb⟩ = d.matchFull env ⟨none, cb⟩) ∧
    (∀ (env : Env) (d : Dispatcher) (t : Option String),
      d.matchFull env ⟨t, some ""⟩ = d.matchFull env ⟨t, none⟩) ∧
    (∀ (env : Env) (d : Dispatcher),
      d.matchRes env ⟨some "", some ""⟩ = .ok none) := by
  refine ⟨fun env d cb => rfl, fun env d t => rfl, fun env d => rfl⟩

/-! ### C10 — fq_name on an unnamed pattern -/

/-- C10: `fq_name` is absent whenever `name` is unset, regardless of any
namespace; with a name present, the qualified form `"namespace:name"`
appears exactly when the namespace is set and non-empty (truthy), and the
bare name is returned for an unset or empty namespace. -/
theorem fq_name_unnamed_absent :
    (∀ p : BasePattern, p.name = none → p.fq_name = none) ∧
    (∀ (p : BasePattern) (n s : String), p.name = some n → p.ns = some s →
      pyTruthyStr s = true → p.fq_name = some (s ++ ":" ++ n)) ∧
    (∀ (p : BasePattern) (n s : String), p.name = some n → p.ns = some s →
      pyTruthyStr s = false → p.fq_name = some n) ∧
    (∀ (p : BasePattern) (n : String), p.name = some n → p.ns = none →
      p.fq_name = some n) := by
  refine ⟨?_, ?_, ?_, ?_⟩ <;> intro p
  · intro h
    unfold BasePattern.fq_name
    simp only [h]
  · intro n s h1 h2 h3
    unfold BasePattern.fq_name
    simp only [h1, h2, h3, if_true]
  · intro n s h1 h2 h3
    unfold BasePattern.fq_name
    simp only [h1, h2, h3]
    rfl
  · intro n h1 h2
    unfold BasePattern.fq_name
    simp only [h1, h2]

/-- C10 witness: an unnamed pattern with a namespace has no `fq_name`; a
named pattern whose namespace is the empty string yields the bare
name. -/
theorem fq_name_unnamed_absent_witness :
    (({ kind := "command", pattern := "x", handler_path := "m.h",
        ns := some "ns" } : BasePattern).name = none ∧
     ({ kind := "command", pattern := "x", handler_path := "m.h",
        ns := some "ns" } : BasePattern).fq_name = none) ∧
    ({ kind := "command", pattern := "x", handler_path := "m.h", name := some "n",
        ns := some "" } : BasePattern).fq_name = some "n" :=
  ⟨⟨rfl, fq_name_unnamed_absent.1 _ rfl⟩,
   fq_name_unnamed_absent.2.2.1 _ "n" "" rfl rfl rfl⟩

end Televoltaic
